import Mathlib

/-!
# Atomics.h: spin lock and atomic cells

A shallow embedding of `Sources/Atomics/include/Atomics.h`.

* Every `static inline` function of the header becomes a Lean function of the same name.
  A pointer argument (`volatile T *_Nonnull`) becomes the pointed-to value, and the function
  hands back an `Exec` record: the C return value, the contents of the pointed-to object after
  the call, and the list of atomic operations the call performed (with the memory order it
  passed to each).
* The compiler builtins `__c11_atomic_load`, `__c11_atomic_store`, `__c11_atomic_exchange`,
  `__c11_atomic_compare_exchange_strong`, `__c11_atomic_fetch_add`, `__c11_atomic_fetch_sub`
  are modelled as single indivisible steps on the object (C11 7.17.7); the memory order is
  recorded in the trace and has no influence on the value computed.
* `int32_t` values are integers of `Int` in the range `INT32_MIN .. INT32_MAX`.  The atomic
  read-modify-write operations wrap (C11 7.17.7.5p3: two's complement, silent wrap-around, no
  undefined results).  The ordinary `+` and `-` of the return expressions are the 32-bit
  two's complement add and subtract instructions the header compiles to (`int32_add` /
  `int32_sub`); the header requests no overflow trapping.
* Threads are modelled by interleaving: a schedule is a list of calls, each taking effect as
  one step.
-/

namespace Atomics

/-! ## Memory orders and the trace of atomic operations -/

/-- The enumeration `bnr_atomic_memory_order_t` (lines 67-75). -/
inductive bnr_atomic_memory_order_t where
  | bnr_atomic_memory_order_relaxed
  | bnr_atomic_memory_order_consume
  | bnr_atomic_memory_order_acquire
  | bnr_atomic_memory_order_release
  | bnr_atomic_memory_order_acq_rel
  | bnr_atomic_memory_order_seq_cst
  deriving DecidableEq, Repr

open bnr_atomic_memory_order_t

/-- The three preprocessor branches of `bnr_atomic_spin` (lines 58-64). -/
inductive Arch where
  | x86
  | arm
  | other
  deriving DecidableEq, Repr

/-- One operation performed by a call, in program order: a call of an atomic builtin with the
memory order passed to it, or a call of `bnr_atomic_spin` on the given architecture. -/
inductive Event where
  | load (order : bnr_atomic_memory_order_t)
  | store (order : bnr_atomic_memory_order_t)
  | exchange (order : bnr_atomic_memory_order_t)
  | compare_exchange_strong (success failure : bnr_atomic_memory_order_t)
  | fetch_add (order : bnr_atomic_memory_order_t)
  | fetch_sub (order : bnr_atomic_memory_order_t)
  | spin (arch : Arch)
  deriving DecidableEq, Repr

/-- Outcome of a call: the C return value, the object after the call, the operations done. -/
structure Exec (σ α : Type) where
  ret : α
  mem : σ
  trace : List Event
  deriving DecidableEq, Repr

/-! ## 32-bit integers -/

def INT32_MIN : Int := -2147483648

def INT32_MAX : Int := 2147483647

/-- Values representable in `int32_t`. -/
def InInt32 (x : Int) : Prop := INT32_MIN ≤ x ∧ x ≤ INT32_MAX

instance (x : Int) : Decidable (InInt32 x) := by
  unfold InInt32; infer_instance

/-- Reduction of an integer to the `int32_t` with the same low 32 bits (two's complement). -/
def wrap32 (x : Int) : Int := (x + 2147483648) % 4294967296 - 2147483648

/-- The C expression `a + b` on `int32_t` operands, as compiled: the 32-bit add. -/
def int32_add (a b : Int) : Int := wrap32 (a + b)

/-- The C expression `a - b` on `int32_t` operands, as compiled: the 32-bit subtract. -/
def int32_sub (a b : Int) : Int := wrap32 (a - b)

/-! ## The builtins -/

/-- Builtin `__c11_atomic_load(obj, order)`. -/
def __c11_atomic_load {α : Type} (obj : α) (order : bnr_atomic_memory_order_t) : Exec α α :=
  { ret := obj, mem := obj, trace := [Event.load order] }

/-- Builtin `__c11_atomic_store(obj, desired, order)`. -/
def __c11_atomic_store {α : Type} (_obj : α) (desired : α) (order : bnr_atomic_memory_order_t) :
    Exec α Unit :=
  { ret := (), mem := desired, trace := [Event.store order] }

/-- Builtin `__c11_atomic_exchange(obj, desired, order)`: returns the previous contents. -/
def __c11_atomic_exchange {α : Type} (obj : α) (desired : α) (order : bnr_atomic_memory_order_t) :
    Exec α α :=
  { ret := obj, mem := desired, trace := [Event.exchange order] }

/-- Builtin `__c11_atomic_compare_exchange_strong(obj, &expected, desired, success, failure)`.
The memory is the pair (object, expected): on a mismatch `expected` receives the object's
contents. -/
def __c11_atomic_compare_exchange_strong {α : Type} [DecidableEq α] (obj : α) (expected : α)
    (desired : α) (success failure : bnr_atomic_memory_order_t) : Exec (α × α) Bool :=
  if obj = expected then
    { ret := true, mem := (desired, expected),
      trace := [Event.compare_exchange_strong success failure] }
  else
    { ret := false, mem := (obj, obj),
      trace := [Event.compare_exchange_strong success failure] }

/-- Builtin `__c11_atomic_fetch_add(obj, amount, order)` on `_Atomic(int32_t)`: returns the
previous contents, stores the wrapped sum. -/
def __c11_atomic_fetch_add (obj : Int) (amount : Int) (order : bnr_atomic_memory_order_t) :
    Exec Int Int :=
  { ret := obj, mem := wrap32 (obj + amount), trace := [Event.fetch_add order] }

/-- Builtin `__c11_atomic_fetch_sub(obj, amount, order)` on `_Atomic(int32_t)`. -/
def __c11_atomic_fetch_sub (obj : Int) (amount : Int) (order : bnr_atomic_memory_order_t) :
    Exec Int Int :=
  { ret := obj, mem := wrap32 (obj - amount), trace := [Event.fetch_sub order] }

/-! ## Busy-wait primitive (lines 57-65) -/

/-- Function `bnr_atomic_spin(void)`: `pause`, `yield` or an empty statement; the state `mem`
is whatever memory the program has. -/
def bnr_atomic_spin {σ : Type} (arch : Arch) (mem : σ) : Exec σ Unit :=
  match arch with
  | Arch.x86 => { ret := (), mem := mem, trace := [Event.spin Arch.x86] }
  | Arch.arm => { ret := (), mem := mem, trace := [Event.spin Arch.arm] }
  | Arch.other => { ret := (), mem := mem, trace := [Event.spin Arch.other] }

/-! ## Spin lock (lines 77-103) -/

/-- The struct `bnr_spinlock_t`: `_Atomic(_Bool) value`. -/
structure bnr_spinlock_t where
  value : Bool
  deriving DecidableEq, Repr

/-- The initialiser `BNR_SPINLOCK_INIT`, `{ 0 }`. -/
def BNR_SPINLOCK_INIT : bnr_spinlock_t := { value := false }

/-- Function `bnr_spinlock_try` (lines 84-87). -/
def bnr_spinlock_try (address : bnr_spinlock_t) : Exec bnr_spinlock_t Bool :=
  let x := __c11_atomic_exchange address.value true bnr_atomic_memory_order_acquire
  { ret := !x.ret, mem := { value := x.mem }, trace := x.trace }

/-- Function `bnr_spinlock_unlock` (lines 100-103). -/
def bnr_spinlock_unlock (address : bnr_spinlock_t) : Exec bnr_spinlock_t Unit :=
  let x := __c11_atomic_store address.value false bnr_atomic_memory_order_release
  { ret := (), mem := { value := x.mem }, trace := x.trace }

/-- Function `bnr_spinlock_lock` (lines 89-98); `__builtin_expect(x, true)` has the value of
`x`, so both preprocessor branches are the same loop.  `fuel` bounds the number of loop
iterations (`none`: still spinning when the fuel ran out).  `env j` is what the other threads did to the
lock while this call was between its attempt number `j` (counted from 0, failed) and the
next one; `fun _ l => l` is a call running alone. -/
def bnr_spinlock_lock (arch : Arch) (env : Nat → bnr_spinlock_t → bnr_spinlock_t) :
    Nat → bnr_spinlock_t → Option (Exec bnr_spinlock_t Unit)
  | 0, _ => none
  | fuel + 1, address =>
    let t := bnr_spinlock_try address
    if t.ret then
      some { ret := (), mem := t.mem, trace := t.trace }
    else
      let s := bnr_atomic_spin arch t.mem
      match bnr_spinlock_lock arch (fun j => env (j + 1)) fuel (env 0 s.mem) with
      | none => none
      | some r => some { ret := (), mem := r.mem, trace := t.trace ++ s.trace ++ r.trace }

/-! ## 32-bit integer cell (lines 105-138) -/

/-- The struct `bnr_atomic_int32_t`: `_Atomic(int32_t) value`. -/
structure bnr_atomic_int32_t where
  value : Int
  deriving DecidableEq, Repr

/-- Function `bnr_atomic_int32_load` (lines 110-113). -/
def bnr_atomic_int32_load (target : bnr_atomic_int32_t) (order : bnr_atomic_memory_order_t) :
    Exec bnr_atomic_int32_t Int :=
  let x := __c11_atomic_load target.value order
  { ret := x.ret, mem := { value := x.mem }, trace := x.trace }

/-- Function `bnr_atomic_int32_store` (lines 115-118). -/
def bnr_atomic_int32_store (target : bnr_atomic_int32_t) (desired : Int)
    (order : bnr_atomic_memory_order_t) : Exec bnr_atomic_int32_t Unit :=
  let x := __c11_atomic_store target.value desired order
  { ret := (), mem := { value := x.mem }, trace := x.trace }

/-- Function `bnr_atomic_int32_exchange` (lines 120-123). -/
def bnr_atomic_int32_exchange (target : bnr_atomic_int32_t) (desired : Int)
    (order : bnr_atomic_memory_order_t) : Exec bnr_atomic_int32_t Int :=
  let x := __c11_atomic_exchange target.value desired order
  { ret := x.ret, mem := { value := x.mem }, trace := x.trace }

/-- Function `bnr_atomic_int32_compare_and_swap` (lines 125-128); the local copy of
`expected` that the builtin may overwrite is dropped on return. -/
def bnr_atomic_int32_compare_and_swap (target : bnr_atomic_int32_t) (expected desired : Int)
    (success failure : bnr_atomic_memory_order_t) : Exec bnr_atomic_int32_t Bool :=
  let x := __c11_atomic_compare_exchange_strong target.value expected desired success failure
  { ret := x.ret, mem := { value := x.mem.1 }, trace := x.trace }

/-- Function `bnr_atomic_int32_add` (lines 130-133): `fetch_add(...) + amount`.  The cell is
updated by the atomic operation; the return value is computed afterwards, as the ordinary
32-bit sum of the fetched (previous) value and `amount`. -/
def bnr_atomic_int32_add (target : bnr_atomic_int32_t) (amount : Int)
    (order : bnr_atomic_memory_order_t) : Exec bnr_atomic_int32_t Int :=
  let x := __c11_atomic_fetch_add target.value amount order
  { ret := int32_add x.ret amount, mem := { value := x.mem }, trace := x.trace }

/-- Function `bnr_atomic_int32_subtract` (lines 135-138): `fetch_sub(...) - amount`. -/
def bnr_atomic_int32_subtract (target : bnr_atomic_int32_t) (amount : Int)
    (order : bnr_atomic_memory_order_t) : Exec bnr_atomic_int32_t Int :=
  let x := __c11_atomic_fetch_sub target.value amount order
  { ret := int32_sub x.ret amount, mem := { value := x.mem }, trace := x.trace }

/-! ## Pointer cell (lines 140-163) -/

/-- A `void *_Nullable`: an address, `NULL` being address 0. -/
abbrev VoidPtr := Nat

def NULL : VoidPtr := 0

/-- The struct `bnr_atomic_ptr_t`: `_Atomic(void *_Nullable) value`. -/
structure bnr_atomic_ptr_t where
  value : VoidPtr
  deriving DecidableEq, Repr

/-- Function `bnr_atomic_ptr_load` (lines 145-148). -/
def bnr_atomic_ptr_load (target : bnr_atomic_ptr_t) (order : bnr_atomic_memory_order_t) :
    Exec bnr_atomic_ptr_t VoidPtr :=
  let x := __c11_atomic_load target.value order
  { ret := x.ret, mem := { value := x.mem }, trace := x.trace }

/-- Function `bnr_atomic_ptr_store` (lines 150-153). -/
def bnr_atomic_ptr_store (target : bnr_atomic_ptr_t) (desired : VoidPtr)
    (order : bnr_atomic_memory_order_t) : Exec bnr_atomic_ptr_t Unit :=
  let x := __c11_atomic_store target.value desired order
  { ret := (), mem := { value := x.mem }, trace := x.trace }

/-- Function `bnr_atomic_ptr_exchange` (lines 155-158). -/
def bnr_atomic_ptr_exchange (target : bnr_atomic_ptr_t) (desired : VoidPtr)
    (order : bnr_atomic_memory_order_t) : Exec bnr_atomic_ptr_t VoidPtr :=
  let x := __c11_atomic_exchange target.value desired order
  { ret := x.ret, mem := { value := x.mem }, trace := x.trace }

/-- Function `bnr_atomic_ptr_compare_and_swap` (lines 160-163). -/
def bnr_atomic_ptr_compare_and_swap (target : bnr_atomic_ptr_t) (expected desired : VoidPtr)
    (success failure : bnr_atomic_memory_order_t) : Exec bnr_atomic_ptr_t Bool :=
  let x := __c11_atomic_compare_exchange_strong target.value expected desired success failure
  { ret := x.ret, mem := { value := x.mem.1 }, trace := x.trace }

/-! ## Executions: one call after the other -/

/-- The lock as attempt number `j` (from 0) of a `bnr_spinlock_lock` call finds it, when the
call started on `l0`, every earlier attempt was followed by the busy-wait, and the other
threads acted as `env` says. -/
def flagBefore (arch : Arch) (env : Nat → bnr_spinlock_t → bnr_spinlock_t)
    (l0 : bnr_spinlock_t) : Nat → bnr_spinlock_t
  | 0 => l0
  | j + 1 => env j (bnr_atomic_spin arch (bnr_spinlock_try (flagBefore arch env l0 j)).mem).mem

/-- The operations of a `bnr_spinlock_lock` call whose first `k` attempts fail: each failed
exchange is followed by one busy-wait, the last exchange by none. -/
def lockTrace (arch : Arch) : Nat → List Event
  | 0 => [Event.exchange bnr_atomic_memory_order_acquire]
  | k + 1 =>
    Event.exchange bnr_atomic_memory_order_acquire :: Event.spin arch :: lockTrace arch k

/-- A call on the lock by a thread. -/
inductive Call where
  | tryLock (thread : Nat)
  | lock (thread : Nat)
  | unlock (thread : Nat)
  deriving DecidableEq, Repr

/-- One lock shared by the threads, with the bookkeeping of who holds it: `holders` lists the
threads whose `tryLock`/`lock` succeeded and who have not unlocked since; `results` lists
the outcome of every `tryLock` in the order the calls took effect. -/
structure System where
  lock : bnr_spinlock_t
  holders : List Nat
  results : List (Nat × Bool)
  deriving DecidableEq, Repr

/-- The lock starts unlocked and nobody holds it. -/
def System.init : System := { lock := BNR_SPINLOCK_INIT, holders := [], results := [] }

/-- One atomic step.  `tryLock t`: a `bnr_spinlock_try`.  `lock t`: one iteration of the loop
of `bnr_spinlock_lock`; either the call returns and `t` holds the lock, or `t` has spun once
and is still inside the call.  `unlock t`: a `bnr_spinlock_unlock`, which the caller contract
allows only to a holder (`none` otherwise). -/
def System.step (arch : Arch) (s : System) : Call → Option System
  | Call.tryLock t =>
    let r := bnr_spinlock_try s.lock
    some { lock := r.mem
           holders := if r.ret then t :: s.holders else s.holders
           results := s.results ++ [(t, r.ret)] }
  | Call.lock t =>
    match bnr_spinlock_lock arch (fun _ l => l) 1 s.lock with
    | some r => some { lock := r.mem, holders := t :: s.holders, results := s.results }
    | none =>
      some { lock := (bnr_atomic_spin arch (bnr_spinlock_try s.lock).mem).mem
             holders := s.holders
             results := s.results }
  | Call.unlock t =>
    if t ∈ s.holders then
      some { lock := (bnr_spinlock_unlock s.lock).mem
             holders := s.holders.erase t
             results := s.results }
    else none

/-- A schedule: the calls in the order in which they take effect. -/
def System.run (arch : Arch) : List Call → System → Option System
  | [], s => some s
  | c :: cs, s =>
    match s.step arch c with
    | none => none
    | some s' => System.run arch cs s'

/-- An add or subtract call on a 32-bit cell. -/
inductive Int32Op where
  | add (amount : Int) (order : bnr_atomic_memory_order_t)
  | subtract (amount : Int) (order : bnr_atomic_memory_order_t)
  deriving DecidableEq, Repr

/-- The signed delta of a call: adds count positive, subtracts negative. -/
def Int32Op.delta : Int32Op → Int
  | Int32Op.add amount _ => amount
  | Int32Op.subtract amount _ => -amount

/-- The cell after the call. -/
def Int32Op.apply (cell : bnr_atomic_int32_t) : Int32Op → bnr_atomic_int32_t
  | Int32Op.add amount order => (bnr_atomic_int32_add cell amount order).mem
  | Int32Op.subtract amount order => (bnr_atomic_int32_subtract cell amount order).mem

/-- The cell after the calls of `ops`, taking effect in list order. -/
def runInt32Ops (ops : List Int32Op) (cell : bnr_atomic_int32_t) : bnr_atomic_int32_t :=
  ops.foldl Int32Op.apply cell

/-- Attempts `bnr_atomic_ptr_compare_and_swap(expected, desired)`, one per pair of orders, in
the order they take effect: the results and the final cell. -/
def ptrCasAttempts (expected desired : VoidPtr) :
    List (bnr_atomic_memory_order_t × bnr_atomic_memory_order_t) → bnr_atomic_ptr_t →
      List Bool × bnr_atomic_ptr_t
  | [], cell => ([], cell)
  | o :: rest, cell =>
    let r := bnr_atomic_ptr_compare_and_swap cell expected desired o.1 o.2
    let rs := ptrCasAttempts expected desired rest r.mem
    (r.ret :: rs.1, rs.2)

/-- Attempts `bnr_atomic_int32_compare_and_swap(expected, desired)`, likewise. -/
def int32CasAttempts (expected desired : Int) :
    List (bnr_atomic_memory_order_t × bnr_atomic_memory_order_t) → bnr_atomic_int32_t →
      List Bool × bnr_atomic_int32_t
  | [], cell => ([], cell)
  | o :: rest, cell =>
    let r := bnr_atomic_int32_compare_and_swap cell expected desired o.1 o.2
    let rs := int32CasAttempts expected desired rest r.mem
    (r.ret :: rs.1, rs.2)

/-! ## Spin lock: single calls -/

/-- C2: `bnr_spinlock_try` returns true exactly when the flag was unlocked before the call,
leaves the flag locked in both cases, and consists of one atomic exchange (no retry). -/
theorem bnr_spinlock_try_spec (address : bnr_spinlock_t) :
    ((bnr_spinlock_try address).ret = true ↔ address.value = false) ∧
    (bnr_spinlock_try address).mem.value = true ∧
    bnr_spinlock_try { value := true } =
      { ret := false, mem := { value := true },
        trace := [Event.exchange bnr_atomic_memory_order_acquire] } ∧
    bnr_spinlock_try { value := false } =
      { ret := true, mem := { value := true },
        trace := [Event.exchange bnr_atomic_memory_order_acquire] } ∧
    (bnr_spinlock_try address).trace = [Event.exchange bnr_atomic_memory_order_acquire] := by
  cases address with
  | mk v => cases v <;> simp [bnr_spinlock_try, __c11_atomic_exchange]

/-! ## Cells: single calls -/

/-- C3: strong compare-and-swap on the 32-bit cell and on the pointer cell returns true
exactly when the current value equals the expected one, whatever the two orders; the cell then
holds the desired value, and otherwise still holds its value. -/
theorem compare_and_swap_spec (c e d : Int) (pc pe pd : VoidPtr)
    (success failure : bnr_atomic_memory_order_t) :
    ((bnr_atomic_int32_compare_and_swap { value := c } e d success failure).ret = true
      ↔ c = e) ∧
    (bnr_atomic_int32_compare_and_swap { value := c } e d success failure).mem.value
      = (if c = e then d else c) ∧
    ((bnr_atomic_ptr_compare_and_swap { value := pc } pe pd success failure).ret = true
      ↔ pc = pe) ∧
    (bnr_atomic_ptr_compare_and_swap { value := pc } pe pd success failure).mem.value
      = (if pc = pe then pd else pc) := by
  refine ⟨?_, ?_, ?_, ?_⟩
  · by_cases h : c = e <;>
      simp [bnr_atomic_int32_compare_and_swap, __c11_atomic_compare_exchange_strong, h]
  · by_cases h : c = e <;>
      simp [bnr_atomic_int32_compare_and_swap, __c11_atomic_compare_exchange_strong, h]
  · by_cases h : pc = pe <;>
      simp [bnr_atomic_ptr_compare_and_swap, __c11_atomic_compare_exchange_strong, h]
  · by_cases h : pc = pe <;>
      simp [bnr_atomic_ptr_compare_and_swap, __c11_atomic_compare_exchange_strong, h]

/-- C7: on one thread, for both cell types and all memory orders, a load right after
`store v` or `exchange v` returns `v` (the null pointer included), and `exchange` returns
what a load right before it returns. -/
theorem read_after_write (c v : Int) (pc pv : VoidPtr)
    (o1 o2 : bnr_atomic_memory_order_t) :
    (bnr_atomic_int32_load (bnr_atomic_int32_store { value := c } v o1).mem o2).ret = v ∧
    (bnr_atomic_int32_load (bnr_atomic_int32_exchange { value := c } v o1).mem o2).ret = v ∧
    (bnr_atomic_int32_exchange (bnr_atomic_int32_load { value := c } o2).mem v o1).ret
      = (bnr_atomic_int32_load { value := c } o2).ret ∧
    (bnr_atomic_int32_exchange { value := c } v o1).ret = c ∧
    (bnr_atomic_ptr_load (bnr_atomic_ptr_store { value := pc } pv o1).mem o2).ret = pv ∧
    (bnr_atomic_ptr_load (bnr_atomic_ptr_exchange { value := pc } pv o1).mem o2).ret = pv ∧
    (bnr_atomic_ptr_exchange (bnr_atomic_ptr_load { value := pc } o2).mem pv o1).ret
      = (bnr_atomic_ptr_load { value := pc } o2).ret ∧
    (bnr_atomic_ptr_exchange { value := pc } pv o1).ret = pc ∧
    (bnr_atomic_ptr_load (bnr_atomic_ptr_store { value := pc } NULL o1).mem o2).ret = NULL := by
  simp [bnr_atomic_int32_load, bnr_atomic_int32_store, bnr_atomic_int32_exchange,
    bnr_atomic_ptr_load, bnr_atomic_ptr_store, bnr_atomic_ptr_exchange,
    __c11_atomic_load, __c11_atomic_store, __c11_atomic_exchange]

/-! ## Spin lock: schedules -/

/-- C8: two callers race `bnr_spinlock_try` on a fresh lock; in either order the first call to
take effect returns true and the other false; after the winner unlocks, the next
`bnr_spinlock_try` by any caller returns true.  `bnr_spinlock_unlock` leaves the flag
unlocked whatever it was, so unlock followed by try succeeds from every lock state. -/
theorem two_caller_race (arch : Arch) (a b u : Nat) (l : bnr_spinlock_t) :
    (System.run arch [Call.tryLock a, Call.tryLock b] System.init).map System.results
      = some [(a, true), (b, false)] ∧
    (System.run arch [Call.tryLock b, Call.tryLock a] System.init).map System.results
      = some [(b, true), (a, false)] ∧
    (System.run arch [Call.tryLock a, Call.tryLock b, Call.unlock a, Call.tryLock u]
        System.init).map System.results
      = some [(a, true), (b, false), (u, true)] ∧
    (System.run arch [Call.tryLock b, Call.tryLock a, Call.unlock b, Call.tryLock u]
        System.init).map System.results
      = some [(b, true), (a, false), (u, true)] ∧
    (bnr_spinlock_unlock l).mem.value = false ∧
    (bnr_spinlock_try (bnr_spinlock_unlock l).mem).ret = true := by
  simp [System.run, System.step, System.init, BNR_SPINLOCK_INIT, bnr_spinlock_try,
    bnr_spinlock_unlock, __c11_atomic_exchange, __c11_atomic_store]

/-- The busy-wait leaves the memory as it is, on every architecture. -/
theorem bnr_atomic_spin_mem {σ : Type} (arch : Arch) (mem : σ) :
    (bnr_atomic_spin arch mem).mem = mem := by
  cases arch <;> rfl

/-- The busy-wait is one recorded call, on every architecture. -/
theorem bnr_atomic_spin_trace {σ : Type} (arch : Arch) (mem : σ) :
    (bnr_atomic_spin arch mem).trace = [Event.spin arch] := by
  cases arch <;> rfl

/-- The memory orders of the lock: `bnr_spinlock_try` is one exchange with
`__ATOMIC_ACQUIRE`, `bnr_spinlock_unlock` one store with `__ATOMIC_RELEASE`. -/
theorem bnr_spinlock_orders (address : bnr_spinlock_t) :
    (bnr_spinlock_try address).trace = [Event.exchange bnr_atomic_memory_order_acquire] ∧
    (bnr_spinlock_unlock address).trace = [Event.store bnr_atomic_memory_order_release] := by
  simp [bnr_spinlock_try, bnr_spinlock_unlock, __c11_atomic_exchange, __c11_atomic_store]

/-- A step keeps: at most one holder, and the flag is set exactly when there is a holder. -/
theorem System.step_invariant (arch : Arch) (c : Call) (s s' : System)
    (hlen : s.holders.length ≤ 1) (hflag : s.lock.value = true ↔ s.holders ≠ [])
    (hstep : s.step arch c = some s') :
    s'.holders.length ≤ 1 ∧ (s'.lock.value = true ↔ s'.holders ≠ []) := by
  obtain ⟨⟨v⟩, hs, rs⟩ := s
  simp only at hlen hflag
  cases c with
  | tryLock t =>
    cases v with
    | false =>
      have hnil : hs = [] := by
        by_contra h
        exact absurd (hflag.mpr h) (by simp)
      subst hnil
      simp [System.step, bnr_spinlock_try, __c11_atomic_exchange] at hstep
      subst hstep
      simp
    | true =>
      simp [System.step, bnr_spinlock_try, __c11_atomic_exchange] at hstep
      subst hstep
      exact ⟨hlen, by simpa using hflag⟩
  | lock t =>
    cases v with
    | false =>
      have hnil : hs = [] := by
        by_contra h
        exact absurd (hflag.mpr h) (by simp)
      subst hnil
      simp [System.step, bnr_spinlock_lock, bnr_spinlock_try, __c11_atomic_exchange] at hstep
      subst hstep
      simp
    | true =>
      simp [System.step, bnr_spinlock_lock, bnr_spinlock_try, __c11_atomic_exchange,
        bnr_atomic_spin_mem] at hstep
      subst hstep
      exact ⟨hlen, by simpa using hflag⟩
  | unlock t =>
    by_cases hmem : t ∈ hs
    · simp [System.step, hmem, bnr_spinlock_unlock, __c11_atomic_store] at hstep
      subst hstep
      have hone : hs = [t] := by
        match hs, hlen, hmem with
        | [x], _, hx =>
          simp only [List.mem_singleton] at hx
          rw [hx]
      subst hone
      simp
    · simp [System.step, hmem] at hstep

/-- Every schedule keeps the two properties. -/
theorem System.run_invariant (arch : Arch) (calls : List Call) :
    ∀ s s' : System, s.holders.length ≤ 1 → (s.lock.value = true ↔ s.holders ≠ []) →
      System.run arch calls s = some s' →
      s'.holders.length ≤ 1 ∧ (s'.lock.value = true ↔ s'.holders ≠ []) := by
  induction calls with
  | nil =>
    intro s s' hlen hflag hrun
    simp [System.run] at hrun
    subst hrun
    exact ⟨hlen, hflag⟩
  | cons c cs ih =>
    intro s s' hlen hflag hrun
    simp only [System.run] at hrun
    cases hstep : s.step arch c with
    | none => simp [hstep] at hrun
    | some s1 =>
      simp only [hstep] at hrun
      obtain ⟨h1, h2⟩ := System.step_invariant arch c s s1 hlen hflag hstep
      exact ih s1 s' h1 h2 hrun

/-- C1: mutual exclusion.  Any number of threads call `bnr_spinlock_try`,
`bnr_spinlock_lock` and `bnr_spinlock_unlock` on one lock that starts unlocked, each call an
atomic step, unlock only by a holder.  In every state reached at most one thread holds the
lock, and the flag is locked exactly when some thread holds it. -/
theorem mutual_exclusion (arch : Arch) (calls : List Call) (s : System)
    (hreach : System.run arch calls System.init = some s) :
    s.holders.length ≤ 1 ∧ (s.lock.value = true ↔ ∃ t, t ∈ s.holders) := by
  obtain ⟨h1, h2⟩ := System.run_invariant arch calls System.init s
    (by simp [System.init]) (by simp [System.init, BNR_SPINLOCK_INIT]) hreach
  refine ⟨h1, h2.trans ?_⟩
  cases s.holders with
  | nil => simp
  | cons x xs => simp

/-- Witness of C1: thread 0 wins a race against thread 1, thread 2 spins, thread 0 unlocks,
thread 2 gets the lock. -/
theorem mutual_exclusion_witness :
    System.run Arch.x86
        [Call.tryLock 0, Call.tryLock 1, Call.lock 2, Call.unlock 0, Call.lock 2] System.init
      = some { lock := { value := true }, holders := [2],
               results := [(0, true), (1, false)] } ∧
    ([2] : List Nat).length ≤ 1 ∧
    ((true = true) ↔ ∃ t, t ∈ ([2] : List Nat)) :=
  ⟨by decide,
   mutual_exclusion Arch.x86
     [Call.tryLock 0, Call.tryLock 1, Call.lock 2, Call.unlock 0, Call.lock 2]
     { lock := { value := true }, holders := [2], results := [(0, true), (1, false)] }
     (by decide)⟩

/-! ## Spin lock: the loop of `bnr_spinlock_lock` -/

/-- What attempt `j + 1` finds is what attempt `j` finds in the call that starts after the
first failed iteration. -/
theorem flagBefore_succ (arch : Arch) (env : Nat → bnr_spinlock_t → bnr_spinlock_t)
    (l0 : bnr_spinlock_t) (j : Nat) :
    flagBefore arch env l0 (j + 1)
      = flagBefore arch (fun i => env (i + 1))
          (env 0 (bnr_atomic_spin arch (bnr_spinlock_try l0).mem).mem) j := by
  induction j with
  | zero => rfl
  | succ j ih =>
    rw [flagBefore, ih]
    rfl

/-- A `bnr_spinlock_lock` call that returns leaves the flag locked. -/
theorem bnr_spinlock_lock_locked (arch : Arch) (fuel : Nat) :
    ∀ (env : Nat → bnr_spinlock_t → bnr_spinlock_t) (l : bnr_spinlock_t)
      (r : Exec bnr_spinlock_t Unit),
      bnr_spinlock_lock arch env fuel l = some r → r.mem.value = true := by
  induction fuel with
  | zero =>
    intro env l r h
    simp [bnr_spinlock_lock] at h
  | succ fuel ih =>
    intro env l r h
    rw [bnr_spinlock_lock] at h
    by_cases ht : (bnr_spinlock_try l).ret = true
    · simp only [ht, if_true, Option.some.injEq] at h
      subst h
      simp [bnr_spinlock_try, __c11_atomic_exchange]
    · simp only [ht] at h
      cases hrec : bnr_spinlock_lock arch (fun j => env (j + 1)) fuel
          (env 0 (bnr_atomic_spin arch (bnr_spinlock_try l).mem).mem) with
      | none => simp [hrec] at h
      | some r1 =>
        simp only [hrec, Bool.false_eq_true, if_false, Option.some.injEq] at h
        subst h
        exact ih _ _ r1 hrec

/-- The loop, given what its attempts find: locked on the first `k`, unlocked on the next. -/
theorem bnr_spinlock_lock_run (arch : Arch) (k : Nat) :
    ∀ (env : Nat → bnr_spinlock_t → bnr_spinlock_t) (l0 : bnr_spinlock_t),
      (∀ j, j < k → (flagBefore arch env l0 j).value = true) →
      (flagBefore arch env l0 k).value = false →
      ∀ fuel, bnr_spinlock_lock arch env fuel l0
        = if k + 1 ≤ fuel then
            some { ret := (), mem := { value := true }, trace := lockTrace arch k }
          else none := by
  induction k with
  | zero =>
    intro env l0 _ hfree fuel
    obtain ⟨v⟩ := l0
    simp only [flagBefore] at hfree
    subst hfree
    cases fuel with
    | zero => simp [bnr_spinlock_lock]
    | succ fuel => simp [bnr_spinlock_lock, bnr_spinlock_try, __c11_atomic_exchange, lockTrace]
  | succ k ih =>
    intro env l0 hlocked hfree fuel
    have h0 : l0.value = true := hlocked 0 (Nat.succ_pos k)
    obtain ⟨v⟩ := l0
    simp only at h0
    subst h0
    cases fuel with
    | zero => simp [bnr_spinlock_lock]
    | succ fuel =>
      have hrec := ih (fun i => env (i + 1))
        (env 0 (bnr_atomic_spin arch (bnr_spinlock_try { value := true }).mem).mem)
        (fun j hj => by
          rw [← flagBefore_succ]
          exact hlocked (j + 1) (Nat.succ_lt_succ hj))
        (by rw [← flagBefore_succ]; exact hfree) fuel
      rw [bnr_spinlock_lock]
      simp only [hrec]
      by_cases hf : k + 1 ≤ fuel
      · simp [hf, bnr_spinlock_try, __c11_atomic_exchange, bnr_atomic_spin_trace, lockTrace]
      · simp [hf, bnr_spinlock_try, __c11_atomic_exchange]

/-- Attempts, busy-waits and length of the trace of a call with `k` failed attempts. -/
theorem lockTrace_counts (arch : Arch) (k : Nat) :
    (lockTrace arch k).count (Event.exchange bnr_atomic_memory_order_acquire) = k + 1 ∧
    (lockTrace arch k).count (Event.spin arch) = k ∧
    (lockTrace arch k).length = 2 * k + 1 := by
  induction k with
  | zero => simp [lockTrace]
  | succ k ih =>
    obtain ⟨h1, h2, h3⟩ := ih
    refine ⟨?_, ?_, ?_⟩
    · simp [lockTrace, List.count_cons, h1]
    · simp [lockTrace, List.count_cons, h2]
    · simp [lockTrace, h3]; omega

/-- C9: `bnr_spinlock_lock` repeats `bnr_spinlock_try` until an attempt succeeds, with one
`bnr_atomic_spin` after each failed attempt and none after the successful one.  If the flag is
found locked on the first `k` attempts and unlocked on attempt `k + 1`, the call returns (given
fuel for `k + 1` iterations, and not before) after exactly `k + 1` attempts and `k` busy-waits,
with the flag locked; for `k = 0` this is the call on an unlocked lock.  Whenever the call
returns the flag is locked, and the busy-wait changes no state. -/
theorem bnr_spinlock_lock_spec (arch : Arch) (env : Nat → bnr_spinlock_t → bnr_spinlock_t)
    (l0 : bnr_spinlock_t) (k : Nat)
    (hlocked : ∀ j, j < k → (flagBefore arch env l0 j).value = true)
    (hfree : (flagBefore arch env l0 k).value = false) :
    (∀ fuel, bnr_spinlock_lock arch env fuel l0
      = if k + 1 ≤ fuel then
          some { ret := (), mem := { value := true }, trace := lockTrace arch k }
        else none) ∧
    (lockTrace arch k).count (Event.exchange bnr_atomic_memory_order_acquire) = k + 1 ∧
    (lockTrace arch k).count (Event.spin arch) = k ∧
    (lockTrace arch k).length = 2 * k + 1 ∧
    (∀ fuel, bnr_spinlock_lock arch env fuel BNR_SPINLOCK_INIT
      = if 1 ≤ fuel then
          some { ret := (), mem := { value := true },
                 trace := [Event.exchange bnr_atomic_memory_order_acquire] }
        else none) ∧
    (∀ (env1 : Nat → bnr_spinlock_t → bnr_spinlock_t) (fuel : Nat) (l : bnr_spinlock_t)
        (r : Exec bnr_spinlock_t Unit),
      bnr_spinlock_lock arch env1 fuel l = some r → r.mem.value = true) ∧
    (∀ (l : bnr_spinlock_t) (c : bnr_atomic_int32_t) (p : bnr_atomic_ptr_t),
      (bnr_atomic_spin arch (l, c, p)).mem = (l, c, p)) := by
  refine ⟨bnr_spinlock_lock_run arch k env l0 hlocked hfree, ?_, ?_, ?_, ?_, ?_, ?_⟩
  · exact (lockTrace_counts arch k).1
  · exact (lockTrace_counts arch k).2.1
  · exact (lockTrace_counts arch k).2.2
  · exact bnr_spinlock_lock_run arch 0 env BNR_SPINLOCK_INIT (fun j hj => absurd hj (by omega))
      (by simp [flagBefore, BNR_SPINLOCK_INIT])
  · intro env1 fuel l r h
    exact bnr_spinlock_lock_locked arch fuel env1 l r h
  · intro l c p
    exact bnr_atomic_spin_mem arch (l, c, p)

/-- Witness of C9: the lock is held when the call starts and another thread unlocks it during
the second busy-wait; the call returns after three attempts and two busy-waits. -/
theorem bnr_spinlock_lock_spec_witness :
    bnr_spinlock_lock Arch.x86 (fun j l => if j = 1 then { value := false } else l) 3
        { value := true }
      = some { ret := (), mem := { value := true },
               trace := [Event.exchange bnr_atomic_memory_order_acquire, Event.spin Arch.x86,
                         Event.exchange bnr_atomic_memory_order_acquire, Event.spin Arch.x86,
                         Event.exchange bnr_atomic_memory_order_acquire] } ∧
    bnr_spinlock_lock Arch.x86 (fun j l => if j = 1 then { value := false } else l) 2
        { value := true } = none := by
  have h := (bnr_spinlock_lock_spec Arch.x86
    (fun j l => if j = 1 then { value := false } else l) { value := true } 2
    (by decide) (by decide)).1
  exact ⟨by simpa [lockTrace] using h 3, by simpa using h 2⟩

/-! ## 32-bit cell: add and subtract -/

/-- Wrapping once more changes nothing. -/
theorem wrap32_add (x a : Int) : wrap32 (wrap32 x + a) = wrap32 (x + a) := by
  unfold wrap32
  omega

/-- A representable value is its own reduction. -/
theorem wrap32_of_inInt32 (x : Int) (h : InInt32 x) : wrap32 x = x := by
  unfold InInt32 INT32_MIN INT32_MAX at h
  unfold wrap32
  omega

/-- Every reduction is representable. -/
theorem inInt32_wrap32 (x : Int) : InInt32 (wrap32 x) := by
  unfold InInt32 INT32_MIN INT32_MAX wrap32
  omega

/-- The cell after `bnr_atomic_int32_add` / `bnr_atomic_int32_subtract` holds the wrapped sum
or difference, for all operands. -/
theorem bnr_atomic_int32_add_mem (v a : Int) (order : bnr_atomic_memory_order_t) :
    (bnr_atomic_int32_add { value := v } a order).mem.value = wrap32 (v + a) ∧
    (bnr_atomic_int32_subtract { value := v } a order).mem.value = wrap32 (v - a) := by
  simp [bnr_atomic_int32_add, bnr_atomic_int32_subtract, __c11_atomic_fetch_add,
    __c11_atomic_fetch_sub]

/-- When the sum (difference) is representable, `bnr_atomic_int32_add`
(`bnr_atomic_int32_subtract`) returns it and it is the new contents of the cell. -/
theorem bnr_atomic_int32_add_ret (v a : Int) (order : bnr_atomic_memory_order_t) :
    (InInt32 (v + a) →
      (bnr_atomic_int32_add { value := v } a order).ret = v + a ∧
      (bnr_atomic_int32_add { value := v } a order).mem.value = v + a) ∧
    (InInt32 (v - a) →
      (bnr_atomic_int32_subtract { value := v } a order).ret = v - a ∧
      (bnr_atomic_int32_subtract { value := v } a order).mem.value = v - a) := by
  constructor
  · intro h
    simp [bnr_atomic_int32_add, __c11_atomic_fetch_add, int32_add, wrap32_add,
      wrap32_of_inInt32 _ h]
  · intro h
    simp [bnr_atomic_int32_subtract, __c11_atomic_fetch_sub, int32_sub,
      wrap32_of_inInt32 _ h]

/-- C4: for every 32-bit cell value `v` and 32-bit amount `a`, `bnr_atomic_int32_add` returns
the new value: its return value (the fetched old value plus the amount, in 32 bits) equals the
contents of the cell after the call, which is `v + a` wrapped to 32-bit two's complement, that
is `v + a` itself when representable, `v + a - 2^32` above `INT32_MAX` and `v + a + 2^32` below
`INT32_MIN`.  `bnr_atomic_int32_subtract` likewise with `v - a`.  Both are total (a value is
returned for every input, overflow included) and perform one atomic read-modify-write. -/
theorem bnr_atomic_int32_add_spec (v a : Int) (order : bnr_atomic_memory_order_t)
    (hv : InInt32 v) (ha : InInt32 a) :
    (bnr_atomic_int32_add { value := v } a order).ret
      = (bnr_atomic_int32_add { value := v } a order).mem.value ∧
    (bnr_atomic_int32_add { value := v } a order).ret = wrap32 (v + a) ∧
    (bnr_atomic_int32_add { value := v } a order).ret
      = (if INT32_MAX < v + a then v + a - 4294967296
         else if v + a < INT32_MIN then v + a + 4294967296 else v + a) ∧
    InInt32 (bnr_atomic_int32_add { value := v } a order).ret ∧
    (bnr_atomic_int32_add { value := v } a order).trace = [Event.fetch_add order] ∧
    (bnr_atomic_int32_subtract { value := v } a order).ret
      = (bnr_atomic_int32_subtract { value := v } a order).mem.value ∧
    (bnr_atomic_int32_subtract { value := v } a order).ret = wrap32 (v - a) ∧
    (bnr_atomic_int32_subtract { value := v } a order).ret
      = (if INT32_MAX < v - a then v - a - 4294967296
         else if v - a < INT32_MIN then v - a + 4294967296 else v - a) ∧
    InInt32 (bnr_atomic_int32_subtract { value := v } a order).ret ∧
    (bnr_atomic_int32_subtract { value := v } a order).trace = [Event.fetch_sub order] := by
  have hadd : (bnr_atomic_int32_add { value := v } a order).ret = wrap32 (v + a) := rfl
  have hsub : (bnr_atomic_int32_subtract { value := v } a order).ret = wrap32 (v - a) := rfl
  unfold InInt32 INT32_MIN INT32_MAX at hv ha
  refine ⟨rfl, hadd, ?_, ?_, rfl, rfl, hsub, ?_, ?_, rfl⟩
  · rw [hadd]
    unfold INT32_MAX INT32_MIN wrap32
    split_ifs <;> omega
  · rw [hadd]
    exact inInt32_wrap32 _
  · rw [hsub]
    unfold INT32_MAX INT32_MIN wrap32
    split_ifs <;> omega
  · rw [hsub]
    exact inInt32_wrap32 _

/-- Witness of C4: adding 1 to a cell holding `INT32_MAX` returns and stores `INT32_MIN`;
subtracting 1 from a cell holding `INT32_MIN` returns and stores `INT32_MAX`; adding 5 to 7
returns and stores 12. -/
theorem bnr_atomic_int32_add_spec_witness :
    (bnr_atomic_int32_add { value := 2147483647 } 1 bnr_atomic_memory_order_relaxed).ret
      = -2147483648 ∧
    (bnr_atomic_int32_add { value := 2147483647 } 1 bnr_atomic_memory_order_relaxed).mem.value
      = -2147483648 ∧
    (bnr_atomic_int32_subtract { value := -2147483648 } 1 bnr_atomic_memory_order_seq_cst).ret
      = 2147483647 ∧
    (bnr_atomic_int32_subtract { value := -2147483648 } 1
        bnr_atomic_memory_order_seq_cst).mem.value = 2147483647 ∧
    (bnr_atomic_int32_add { value := 7 } 5 bnr_atomic_memory_order_acq_rel).ret = 12 ∧
    (bnr_atomic_int32_add { value := 7 } 5 bnr_atomic_memory_order_acq_rel).mem.value
      = 12 := by
  have h1 := bnr_atomic_int32_add_spec 2147483647 1 bnr_atomic_memory_order_relaxed
    (by decide) (by decide)
  have h2 := bnr_atomic_int32_add_spec (-2147483648) 1 bnr_atomic_memory_order_seq_cst
    (by decide) (by decide)
  have h3 := bnr_atomic_int32_add_spec 7 5 bnr_atomic_memory_order_acq_rel
    (by decide) (by decide)
  have e1 := h1.2.2.1
  have e2 := h2.2.2.2.2.2.2.2.1
  have e3 := h3.2.2.1
  norm_num [INT32_MAX, INT32_MIN] at e1 e2 e3
  exact ⟨e1, h1.1 ▸ e1, e2, h2.2.2.2.2.2.1 ▸ e2, e3, h3.1 ▸ e3⟩

/-- The cell after a list of add/subtract calls, from a representable start. -/
theorem runInt32Ops_value (ops : List Int32Op) :
    ∀ v : Int, InInt32 v →
      (runInt32Ops ops { value := v }).value = wrap32 (v + (ops.map Int32Op.delta).sum) := by
  induction ops with
  | nil =>
    intro v hv
    simp [runInt32Ops, wrap32_of_inInt32 v hv]
  | cons op ops ih =>
    intro v hv
    cases op with
    | add amount order =>
      have h := ih (wrap32 (v + amount)) (inInt32_wrap32 _)
      simp only [runInt32Ops] at h
      simp only [runInt32Ops, List.foldl_cons, Int32Op.apply, bnr_atomic_int32_add,
        __c11_atomic_fetch_add, List.map_cons, List.sum_cons, Int32Op.delta]
      rw [h, wrap32_add, Int.add_assoc]
    | subtract amount order =>
      have h := ih (wrap32 (v - amount)) (inInt32_wrap32 _)
      simp only [runInt32Ops] at h
      simp only [runInt32Ops, List.foldl_cons, Int32Op.apply, bnr_atomic_int32_subtract,
        __c11_atomic_fetch_sub, List.map_cons, List.sum_cons, Int32Op.delta]
      rw [h, wrap32_add, Int.sub_eq_add_neg, Int.add_assoc]

/-- C5: from any 32-bit initial value, after any finite list of `bnr_atomic_int32_add` /
`bnr_atomic_int32_subtract` calls taking effect one at a time, the cell holds the initial value
plus the sum of the signed deltas, wrapped to 32 bits; a second list with the same deltas in
another order (and any memory orders) ends with the same cell. -/
theorem add_subtract_sum (v : Int) (ops ops' : List Int32Op) (hv : InInt32 v)
    (hperm : (ops'.map Int32Op.delta).Perm (ops.map Int32Op.delta)) :
    (runInt32Ops ops { value := v }).value = wrap32 (v + (ops.map Int32Op.delta).sum) ∧
    runInt32Ops ops' { value := v } = runInt32Ops ops { value := v } := by
  refine ⟨runInt32Ops_value ops v hv, ?_⟩
  have h1 := runInt32Ops_value ops v hv
  have h2 := runInt32Ops_value ops' v hv
  rw [hperm.sum_eq] at h2
  cases hx : runInt32Ops ops' { value := v } with
  | mk x =>
    cases hy : runInt32Ops ops { value := v } with
    | mk y =>
      rw [hx] at h2
      rw [hy] at h1
      simp only at h1 h2
      rw [h1, h2]

/-- Witness of C5: from `INT32_MAX`, add 1, subtract 3, add 2 in two different orders and
with different memory orders; the first order passes through the wrap-around. -/
theorem add_subtract_sum_witness :
    InInt32 2147483647 ∧
    (runInt32Ops
        [Int32Op.add 1 bnr_atomic_memory_order_relaxed,
         Int32Op.subtract 3 bnr_atomic_memory_order_seq_cst,
         Int32Op.add 2 bnr_atomic_memory_order_acq_rel] { value := 2147483647 }).value
      = wrap32 (2147483647 +
          ([Int32Op.add 1 bnr_atomic_memory_order_relaxed,
            Int32Op.subtract 3 bnr_atomic_memory_order_seq_cst,
            Int32Op.add 2 bnr_atomic_memory_order_acq_rel].map Int32Op.delta).sum) ∧
    runInt32Ops
        [Int32Op.subtract 3 bnr_atomic_memory_order_release,
         Int32Op.add 2 bnr_atomic_memory_order_relaxed,
         Int32Op.add 1 bnr_atomic_memory_order_relaxed] { value := 2147483647 }
      = runInt32Ops
        [Int32Op.add 1 bnr_atomic_memory_order_relaxed,
         Int32Op.subtract 3 bnr_atomic_memory_order_seq_cst,
         Int32Op.add 2 bnr_atomic_memory_order_acq_rel] { value := 2147483647 } :=
  ⟨by decide,
   add_subtract_sum 2147483647
     [Int32Op.add 1 bnr_atomic_memory_order_relaxed,
      Int32Op.subtract 3 bnr_atomic_memory_order_seq_cst,
      Int32Op.add 2 bnr_atomic_memory_order_acq_rel]
     [Int32Op.subtract 3 bnr_atomic_memory_order_release,
      Int32Op.add 2 bnr_atomic_memory_order_relaxed,
      Int32Op.add 1 bnr_atomic_memory_order_relaxed]
     (by decide) (by decide)⟩

/-! ## Compare-and-swap races -/

/-- Once the pointer cell differs from `expected`, every further attempt fails and leaves it. -/
theorem ptrCasAttempts_mismatch (e d : VoidPtr)
    (os : List (bnr_atomic_memory_order_t × bnr_atomic_memory_order_t)) :
    ∀ c : VoidPtr, c ≠ e →
      ptrCasAttempts e d os { value := c } = (List.replicate os.length false, { value := c }) := by
  induction os with
  | nil => intro c _; rfl
  | cons o os ih =>
    intro c hc
    simp [ptrCasAttempts, bnr_atomic_ptr_compare_and_swap, __c11_atomic_compare_exchange_strong,
      hc, ih c hc, List.replicate_succ]

/-- Once the 32-bit cell differs from `expected`, every further attempt fails and leaves it. -/
theorem int32CasAttempts_mismatch (e d : Int)
    (os : List (bnr_atomic_memory_order_t × bnr_atomic_memory_order_t)) :
    ∀ c : Int, c ≠ e →
      int32CasAttempts e d os { value := c }
        = (List.replicate os.length false, { value := c }) := by
  induction os with
  | nil => intro c _; rfl
  | cons o os ih =>
    intro c hc
    simp [int32CasAttempts, bnr_atomic_int32_compare_and_swap,
      __c11_atomic_compare_exchange_strong, hc, ih c hc, List.replicate_succ]

/-- No `true` among failures. -/
theorem count_true_replicate_false (n : Nat) : (List.replicate n false).count true = 0 := by
  simp [List.count_eq_zero]

/-- C6 as stated fails for the null pointer: from a cell holding null, two attempts
`bnr_atomic_ptr_compare_and_swap(null, null)` both return true. -/
theorem compare_and_swap_null_twice :
    (ptrCasAttempts NULL NULL
        [(bnr_atomic_memory_order_seq_cst, bnr_atomic_memory_order_seq_cst),
         (bnr_atomic_memory_order_seq_cst, bnr_atomic_memory_order_seq_cst)]
        { value := NULL }).1 = [true, true] ∧
    (ptrCasAttempts NULL NULL
        [(bnr_atomic_memory_order_seq_cst, bnr_atomic_memory_order_seq_cst),
         (bnr_atomic_memory_order_seq_cst, bnr_atomic_memory_order_seq_cst)]
        { value := NULL }).1.count true ≠ 1 := by
  decide

/-- C6, amended: for every non-null pointer `p` and every `n ≥ 1` attempts
`bnr_atomic_ptr_compare_and_swap(null, p)` (any orders) on a cell holding null, taking effect
one at a time, the first to take effect returns true, all the others return false, so exactly
one succeeds, and the cell ends holding `p`.  More generally, on a cell of either type and from
any contents, among any number of attempts for one transition `e` to `d` with `e ≠ d`, at most
one succeeds. -/
theorem compare_and_swap_once (p : VoidPtr)
    (os os1 os2 : List (bnr_atomic_memory_order_t × bnr_atomic_memory_order_t))
    (c e d : VoidPtr) (ci ei di : Int)
    (hp : p ≠ NULL) (hn : 1 ≤ os.length) (hed : e ≠ d) (hedi : ei ≠ di) :
    ptrCasAttempts NULL p os { value := NULL }
      = (true :: List.replicate (os.length - 1) false, { value := p }) ∧
    (ptrCasAttempts NULL p os { value := NULL }).1.count true = 1 ∧
    (ptrCasAttempts e d os1 { value := c }).1.count true ≤ 1 ∧
    (int32CasAttempts ei di os2 { value := ci }).1.count true ≤ 1 := by
  have hfirst : ptrCasAttempts NULL p os { value := NULL }
      = (true :: List.replicate (os.length - 1) false, { value := p }) := by
    cases os with
    | nil => simp at hn
    | cons o os =>
      simp [ptrCasAttempts, bnr_atomic_ptr_compare_and_swap,
        __c11_atomic_compare_exchange_strong, ptrCasAttempts_mismatch NULL p os p hp]
  refine ⟨hfirst, ?_, ?_, ?_⟩
  · rw [hfirst]
    simp [List.count_cons, count_true_replicate_false]
  · by_cases hc : c = e
    · subst hc
      cases os1 with
      | nil => simp [ptrCasAttempts]
      | cons o os1 =>
        simp [ptrCasAttempts, bnr_atomic_ptr_compare_and_swap,
          __c11_atomic_compare_exchange_strong,
          ptrCasAttempts_mismatch c d os1 d (Ne.symm hed), List.count_cons,
          count_true_replicate_false]
    · rw [ptrCasAttempts_mismatch e d os1 c hc]
      simp [count_true_replicate_false]
  · by_cases hc : ci = ei
    · subst hc
      cases os2 with
      | nil => simp [int32CasAttempts]
      | cons o os2 =>
        simp [int32CasAttempts, bnr_atomic_int32_compare_and_swap,
          __c11_atomic_compare_exchange_strong,
          int32CasAttempts_mismatch ci di os2 di (Ne.symm hedi), List.count_cons,
          count_true_replicate_false]
    · rw [int32CasAttempts_mismatch ei di os2 ci hc]
      simp [count_true_replicate_false]

/-- Witness of C6, amended: three attempts to install the pointer 4096, and two races for the
transition from 7 to 8 on cells that hold 7. -/
theorem compare_and_swap_once_witness :
    ptrCasAttempts NULL 4096
        [(bnr_atomic_memory_order_acq_rel, bnr_atomic_memory_order_acquire),
         (bnr_atomic_memory_order_seq_cst, bnr_atomic_memory_order_relaxed),
         (bnr_atomic_memory_order_release, bnr_atomic_memory_order_relaxed)]
        { value := NULL }
      = ([true, false, false], { value := 4096 }) ∧
    (ptrCasAttempts 7 8
        [(bnr_atomic_memory_order_seq_cst, bnr_atomic_memory_order_seq_cst),
         (bnr_atomic_memory_order_seq_cst, bnr_atomic_memory_order_seq_cst)]
        { value := 7 }).1.count true ≤ 1 ∧
    (int32CasAttempts 7 8
        [(bnr_atomic_memory_order_seq_cst, bnr_atomic_memory_order_seq_cst),
         (bnr_atomic_memory_order_seq_cst, bnr_atomic_memory_order_seq_cst)]
        { value := 7 }).1.count true ≤ 1 := by
  have h := compare_and_swap_once 4096
    [(bnr_atomic_memory_order_acq_rel, bnr_atomic_memory_order_acquire),
     (bnr_atomic_memory_order_seq_cst, bnr_atomic_memory_order_relaxed),
     (bnr_atomic_memory_order_release, bnr_atomic_memory_order_relaxed)]
    [(bnr_atomic_memory_order_seq_cst, bnr_atomic_memory_order_seq_cst),
     (bnr_atomic_memory_order_seq_cst, bnr_atomic_memory_order_seq_cst)]
    [(bnr_atomic_memory_order_seq_cst, bnr_atomic_memory_order_seq_cst),
     (bnr_atomic_memory_order_seq_cst, bnr_atomic_memory_order_seq_cst)]
    7 7 8 7 7 8 (by decide) (by decide) (by decide) (by decide)
  exact ⟨by simpa using h.1, h.2.2.1, h.2.2.2⟩

end Atomics
